import Mathlib

/-!
Verification of the TOON parser `parse_toon` from
`tools/fetchers/unified_fetcher_v3.py`.

The parser is embedded shallowly: Python dictionaries and lists are mutable
objects, so the embedding uses an explicit heap (`dicts`, `arrs`) indexed by
allocation order, and the parser state threads that heap exactly as the
Python code threads its local variables (`stack`, `indent_stack`,
`current_array_list` / `current_array_fields` / `current_array_indent`).
All character-level operations model CPython semantics; the model is exact on
the ASCII and Latin-1 ranges, which cover every input considered here.
-/

namespace Toon

/-- Python `str.strip()` / `\s` whitespace, modelled on the ASCII and Latin-1
range: space, tab, newline, carriage return, vertical tab, form feed, and the
Latin-1 whitespace U+0085 and U+00A0. -/
def isPySpace (c : Char) : Bool :=
  c = ' ' || c = '\t' || c = '\n' || c = '\r' || c = '\x0b' || c = '\x0c' ||
  c.val = 0x85 || c.val = 0xA0

/-- Python `re` word character `\w` on `str` (Unicode-aware), modelled exactly
on the ASCII and Latin-1 ranges: `[A-Za-z0-9_]` together with the Latin-1
characters the Unicode database classifies as alphanumeric
(ª µ º ² ³ ¹ ¼ ½ ¾ and the letters U+00C0–U+00FF except × and ÷). -/
def pyWordChar (c : Char) : Bool :=
  c.isAlphanum || c = '_' ||
  c.val = 0xAA || c.val = 0xB5 || c.val = 0xBA ||
  c.val = 0xB2 || c.val = 0xB3 || c.val = 0xB9 ||
  (0xBC ≤ c.val && c.val ≤ 0xBE) ||
  (0xC0 ≤ c.val && c.val ≤ 0xFF && c.val ≠ 0xD7 && c.val ≠ 0xF7)

/-- Python `str.lstrip()`. -/
def pyLStrip (cs : List Char) : List Char := cs.dropWhile isPySpace

/-- Python `str.rstrip()`. -/
def pyRStrip (cs : List Char) : List Char := (cs.reverse.dropWhile isPySpace).reverse

/-- Python `str.strip()`. -/
def pyStripL (cs : List Char) : List Char := pyRStrip (pyLStrip cs)

/-- Python `str.strip()` at `String` type. -/
def pyStrip (s : String) : String := (pyStripL s.data).asString

/-- Model of `len(line) - len(line.lstrip())`: the leading-whitespace width of a line. -/
def pyIndent (line : List Char) : Int := ((line.takeWhile isPySpace).length : Int)

/-- Python `str.split(sep)` for a one-character separator (used for
`text.split('\n')` and `group(2).split(',')`); keeps empty pieces, and an
empty string yields `[""]`, as in Python. -/
def pySplit (sep : Char) : List Char → List (List Char)
  | [] => [[]]
  | c :: rest =>
    match pySplit sep rest with
    | [] => [[]]
    | l :: ls => if c = sep then [] :: l :: ls else (c :: l) :: ls

/-- The exceptions the Python body can raise internally (all of them are
caught by its `try/except` blocks): `StopIteration` from `next(reader)` on
empty input, and `_csv.Error` for a stray CR/LF outside a quoted field. -/
inductive PyExn where
  | stopIteration
  | csvError
deriving DecidableEq

/-- Parser state of CPython's `_csv` reader (restricted to the states
reachable from a single line of input with the default dialect). -/
inductive CsvSt where
  | startField
  | inField
  | inQuoted
  | quoteInQuoted

/-- One step-per-character run of CPython's `csv.reader` with
`skipinitialspace=True` and the default dialect (delimiter `,`, quote `"`,
doubled-quote escaping, non-strict) over a single line. At end of data any
pending field is saved (non-strict behaviour, which also accepts an unclosed
quote). A CR or LF outside a quoted field is a decode fault: in CPython it
either ends the record early and leaves the reader mid-record
(`StopIteration`) or raises `_csv.Error`; both surface as an exception from
`next(reader)` here. -/
def csvRun : List Char → CsvSt → List Char → List String → Except PyExn (List String)
  | [], _, field, acc => .ok (acc ++ [field.asString])
  | c :: rest, .startField, field, acc =>
    if c = ' ' then csvRun rest .startField field acc
    else if c = '"' then csvRun rest .inQuoted field acc
    else if c = ',' then csvRun rest .startField [] (acc ++ [field.asString])
    else if c = '\r' || c = '\n' then .error .csvError
    else csvRun rest .inField (field ++ [c]) acc
  | c :: rest, .inField, field, acc =>
    if c = ',' then csvRun rest .startField [] (acc ++ [field.asString])
    else if c = '\r' || c = '\n' then .error .csvError
    else csvRun rest .inField (field ++ [c]) acc
  | c :: rest, .inQuoted, field, acc =>
    if c = '"' then csvRun rest .quoteInQuoted field acc
    else csvRun rest .inQuoted (field ++ [c]) acc
  | c :: rest, .quoteInQuoted, field, acc =>
    if c = '"' then csvRun rest .inQuoted (field ++ ['"']) acc
    else if c = ',' then csvRun rest .startField [] (acc ++ [field.asString])
    else if c = '\r' || c = '\n' then .error .csvError
    else csvRun rest .inField (field ++ [c]) acc

/-- Model of `next(csv.reader(StringIO(s), skipinitialspace=True))`: `StopIteration`
on empty input, otherwise the first (and only) decoded record of `s`. -/
def csvParse (content : List Char) : Except PyExn (List String) :=
  if content = [] then .error .stopIteration
  else csvRun content .startField [] []

/-- Python dictionary assignment `d[k] = v` on an insertion-ordered
dictionary represented as an association list: an existing key keeps its
position and gets the new value, a new key is appended. -/
def updAssoc (k : String) (v : α) : List (String × α) → List (String × α)
  | [] => [(k, v)]
  | kv :: rest => if kv.1 = k then (k, v) :: rest else kv :: updAssoc k v rest

/-- A row object: `dict(zip(current_array_fields, row))`. -/
def dictOfZip (fields vals : List String) : List (String × String) :=
  (fields.zip vals).foldl (fun d kv => updAssoc kv.1 kv.2 d) []

/-- A value stored in one of the parser's dictionaries. References stand for
Python object identity: `dref` / `aref` point into the heaps below. -/
inductive PVal where
  | s : String → PVal
  | strs : List String → PVal
  | dref : Nat → PVal
  | aref : Nat → PVal

/-- The state of one `parse_toon` call:
`dicts` is the heap of dictionary objects in allocation order (id 0 is
`data`), `arrs` the heap of object-array lists, `frames` zips the Python
locals `indent_stack` and `stack` (head = top, bottom frame `(-1, 0)`), and
`ctx` is `(current_array_list, current_array_fields, current_array_indent)`
when `current_array_list is not None`. -/
structure PState where
  dicts : List (List (String × PVal))
  arrs : List (List (List (String × String)))
  frames : List (Int × Nat)
  ctx : Option (Nat × List String × Int)

/-- Initial state: `data = {}; stack = [data]; indent_stack = [-1]`; no open array context. -/
def initState : PState :=
  { dicts := [[]], arrs := [], frames := [((-1 : Int), 0)], ctx := none }

/-- Model of `stack[-1]`, the dictionary that the current line would mutate. -/
def curDictId (st : PState) : Nat := (st.frames.headD ((-1 : Int), 0)).2

/-- Model of `current_dict[key] = v` for the dictionary with heap id `did`. -/
def setKey (st : PState) (did : Nat) (k : String) (v : PVal) : PState :=
  { st with dicts := st.dicts.set did (updAssoc k v (st.dicts.getD did [])) }

/-- Model of `current_array_list.append(row)` for the array with heap id `aid`. -/
def appendRow (st : PState) (aid : Nat) (row : List (String × String)) : PState :=
  { st with arrs := st.arrs.set aid (st.arrs.getD aid [] ++ [row]) }

/-- The conditional context clearing performed after each pop of the dedent
loop: `if current_array_list is not None and indent <= current_array_indent:`
reset the three context variables. -/
def popCtx (w : Int) : Option (Nat × List String × Int) → Option (Nat × List String × Int)
  | some c => if w ≤ c.2.2 then none else some c
  | none => none

/-- The dedent loop:
`while indent <= indent_stack[-1] and len(indent_stack) > 1:` pop both
stacks and run the context clearing after each pop. -/
def popFrames (w : Int) :
    List (Int × Nat) → Option (Nat × List String × Int) →
    List (Int × Nat) × Option (Nat × List String × Int)
  | f :: f2 :: fs, ctx =>
    if w ≤ f.1 then popFrames w (f2 :: fs) (popCtx w ctx)
    else (f :: f2 :: fs, ctx)
  | fs, ctx => (fs, ctx)

/-- Model of `re.match` with pattern `(\w+)\s*:\s*(.*)` anchored at the start: the key and the
(leading-whitespace-stripped) value of a key-value line. All three line
regexes are implemented by maximal munch, which coincides with Python's
greedy backtracking semantics for these patterns because `\w`, `\s`, `\d`
and the literal characters that follow them are pairwise disjoint; `content`
never contains a newline, so `.` and `$` behave literally. -/
def matchKV (content : List Char) : Option (String × List Char) :=
  let key := content.takeWhile pyWordChar
  let r0 := (content.dropWhile pyWordChar).dropWhile isPySpace
  if key = [] then none
  else
    match r0 with
    | ':' :: r1 => some (key.asString, r1.dropWhile isPySpace)
    | _ => none

/-- Model of `re.match` with the simple-array pattern `(\w+)\s*\[\d+\]\s*:\s*(.+)`: the key and the
group-2 remainder of a simple-array line. When everything after the colon is
whitespace, `\s*(.+)$` backtracks so that group 2 is the final whitespace
character (unreachable here since `content` is stripped, but modelled). -/
def matchArrSimple (content : List Char) : Option (String × List Char) :=
  let key := content.takeWhile pyWordChar
  let r0 := (content.dropWhile pyWordChar).dropWhile isPySpace
  if key = [] then none
  else
    match r0 with
    | '[' :: r1 =>
      let ds := r1.takeWhile Char.isDigit
      let r2 := r1.dropWhile Char.isDigit
      if ds = [] then none
      else
        match r2 with
        | ']' :: r3 =>
          match r3.dropWhile isPySpace with
          | ':' :: r4 =>
            let ws := r4.takeWhile isPySpace
            let r5 := r4.dropWhile isPySpace
            if r5 ≠ [] then some (key.asString, r5)
            else
              match ws.reverse with
              | c :: _ => some (key.asString, [c])
              | [] => none
          | _ => none
        | _ => none
    | _ => none

/-- Model of `re.match` with the object-array header pattern (key, bracketed count, braced field list, trailing colon): the
key and the raw field list (group 2, the characters strictly between the
braces) of an object-array header line. -/
def matchArrObj (content : List Char) : Option (String × List Char) :=
  let key := content.takeWhile pyWordChar
  let r0 := (content.dropWhile pyWordChar).dropWhile isPySpace
  if key = [] then none
  else
    match r0 with
    | '[' :: r1 =>
      let ds := r1.takeWhile Char.isDigit
      let r2 := r1.dropWhile Char.isDigit
      if ds = [] then none
      else
        match r2 with
        | ']' :: r3 =>
          match r3.dropWhile isPySpace with
          | '{' :: r4 =>
            let fs := r4.takeWhile (fun c => c ≠ '}')
            let r5 := r4.dropWhile (fun c => c ≠ '}')
            if fs = [] then none
            else
              match r5 with
              | '}' :: r6 =>
                match r6.dropWhile isPySpace with
                | ':' :: r7 => if r7.dropWhile isPySpace = [] then some (key.asString, fs) else none
                | _ => none
              | _ => none
          | _ => none
        | _ => none
    | _ => none

/-- Quote stripping for a non-empty key-value value: if it starts and ends
with `"` (or with `'`), take `value[1:-1]` (for a single quote character
this yields the empty string, exactly as in Python). -/
def stripQuotes (v : List Char) : List Char :=
  if v.take 1 = ['"'] && v.reverse.take 1 = ['"'] then (v.drop 1).dropLast
  else if v.take 1 = ['\''] && v.reverse.take 1 = ['\''] then (v.drop 1).dropLast
  else v

/-- The data-row branch: `row = next(reader)` inside `try/except`; append
`dict(zip(current_array_fields, row))` when the decoded count equals
`len(current_array_fields)`, otherwise (wrong count or exception) leave the
state untouched. -/
def consumeRow (st : PState) (aid : Nat) (fields : List String) (content : List Char) : PState :=
  match csvParse content with
  | .ok row =>
    if row.length = fields.length then appendRow st aid (dictOfZip fields row) else st
  | .error _ => st

/-- The line classifier: try the object-array header, the simple array and
the key-value regexes, in this order, against the stripped line content;
fall through (no mutation) when none matches. -/
def classify (st : PState) (indent : Int) (content : List Char) : PState :=
  let cur := curDictId st
  match matchArrObj content with
  | some (key, fieldsRaw) =>
    let fields := (pySplit ',' fieldsRaw).map (fun f => (pyStripL f).asString)
    let aid := st.arrs.length
    let st := { st with arrs := st.arrs ++ [[]] }
    let st := setKey st cur key (PVal.aref aid)
    { st with ctx := some (aid, fields, indent) }
  | none =>
    match matchArrSimple content with
    | some (key, rest) =>
      match csvParse rest with
      | .ok values => setKey st cur key (PVal.strs values)
      | .error _ => setKey st cur key (PVal.strs [])
    | none =>
      match matchKV content with
      | some (key, value) =>
        if value = [] then
          let did := st.dicts.length
          let st := { st with dicts := st.dicts ++ [[]] }
          let st := setKey st cur key (PVal.dref did)
          { st with frames := (indent, did) :: st.frames }
        else
          setKey st cur key (PVal.s (stripQuotes value).asString)
      | none => st

/-- One iteration of the `for line in lines` loop: skip blank and comment
lines, resolve dedent, then either consume the line as a CSV data row (open
array context and `indent > current_array_indent`) or classify it. Every
branch returns `.ok`: all fallible operations are inside `try/except`. -/
def processLine (st : PState) (line : List Char) : Except PyExn PState :=
  let stripped := pyStripL line
  if stripped = [] || stripped.take 1 = ['#'] then .ok st
  else
    let indent := pyIndent line
    let content := stripped
    let pf := popFrames indent st.frames st.ctx
    let st := { st with frames := pf.1, ctx := pf.2 }
    match st.ctx with
    | some (aid, fields, aIndent) =>
      if aIndent < indent then .ok (consumeRow st aid fields content)
      else .ok (classify st indent content)
    | none => .ok (classify st indent content)

/-- The whole loop, propagating any (in fact never-raised) exception. -/
def runLines : PState → List (List Char) → Except PyExn PState
  | st, [] => .ok st
  | st, l :: ls =>
    match processLine st l with
    | .ok st' => runLines st' ls
    | .error e => .error e

/-- The value tree `parse_toon` returns, with heap references resolved:
an insertion-ordered dictionary (`obj`), a scalar string, a simple array of
strings, or an array of flat string objects. -/
inductive Value where
  | scalar : String → Value
  | obj : List (String × Value) → Value
  | simpleArr : List String → Value
  | objArr : List (List (String × String)) → Value

/-- Resolve one stored value against the heaps; `fuel` bounds the reference
depth (the heap is acyclic and every chain is shorter than the number of
allocated dictionaries, so `readout` below always has enough fuel). -/
def readVal (dicts : List (List (String × PVal)))
    (arrs : List (List (List (String × String)))) : Nat → PVal → Value
  | _, PVal.s v => Value.scalar v
  | _, PVal.strs vs => Value.simpleArr vs
  | _, PVal.aref a => Value.objArr (arrs.getD a [])
  | 0, PVal.dref _ => Value.obj []
  | Nat.succ fuel, PVal.dref d =>
    Value.obj ((dicts.getD d []).map (fun kv => (kv.1, readVal dicts arrs fuel kv.2)))

/-- The returned dictionary `data` (heap id 0) as a value tree. -/
def readout (st : PState) : Value := readVal st.dicts st.arrs st.dicts.length (PVal.dref 0)

/-- Top level of `parse_toon(text)`: strip the text, split it on newlines, run the loop
from the empty document, and return `data`. -/
def parse_toon (text : String) : Except PyExn Value :=
  match runLines initState (pySplit '\n' (pyStripL text.data)) with
  | .ok st => .ok (readout st)
  | .error e => .error e

/-- The spec's key-character class, literally `[A-Za-z0-9_]` (for comparison
with the code's `\w`). -/
def specKeyChar (c : Char) : Bool :=
  ('A' ≤ c && c ≤ 'Z') || ('a' ≤ c && c ≤ 'z') || ('0' ≤ c && c ≤ '9') || c = '_'

/-- The module-level mutable state of `unified_fetcher_v3.py` (the only
mutable global is the AI-quota flag); used to express that `parse_toon`
neither reads nor writes it. -/
structure ModuleState where
  ai_quota_exceeded : Bool

/-- One invocation of `parse_toon` with the module state threaded through.
The body of `parse_toon` contains no `global` statement and reads no
module-level mutable name (its free names are only the pure imported
functions `re.match`, `csv.reader` and `StringIO`), so the translation
passes the module state through unchanged and the result depends only on
the argument text. -/
def parse_toon_call (g : ModuleState) (text : String) : ModuleState × Except PyExn Value :=
  (g, parse_toon text)

/-- A sequence of `parse_toon` invocations sharing the module state. -/
def runCalls : ModuleState → List String → ModuleState × List (Except PyExn Value)
  | g, [] => (g, [])
  | g, t :: ts =>
    let r := parse_toon_call g t
    let rest := runCalls r.1 ts
    (rest.1, r.2 :: rest.2)

/-! ### Helper lemmas -/

theorem processLine_isOk (st : PState) (line : List Char) :
    ∃ st', processLine st line = .ok st' := by
  simp only [processLine]
  split
  · exact ⟨st, rfl⟩
  · split
    · split
      · exact ⟨_, rfl⟩
      · exact ⟨_, rfl⟩
    · exact ⟨_, rfl⟩

theorem runLines_isOk (lines : List (List Char)) :
    ∀ st, ∃ st', runLines st lines = .ok st' := by
  induction lines with
  | nil => exact fun st => ⟨st, rfl⟩
  | cons l ls ih =>
    intro st
    obtain ⟨st1, h1⟩ := processLine_isOk st l
    obtain ⟨st2, h2⟩ := ih st1
    exact ⟨st2, by simp [runLines, h1, h2]⟩

theorem dropWhile_twice (p : α → Bool) (l : List α) :
    (l.dropWhile p).dropWhile p = l.dropWhile p := by
  induction l with
  | nil => rfl
  | cons a l ih =>
    by_cases h : p a
    · simp [List.dropWhile_cons, h, ih]
    · simp [List.dropWhile_cons, h]

theorem head_not_of_dropWhile_eq_self {p : α → Bool} {c : α} {cs : List α}
    (h : (c :: cs).dropWhile p = c :: cs) : p c = false := by
  by_cases hc : p c
  · exfalso
    rw [List.dropWhile_cons, if_pos hc] at h
    have hlen := (List.dropWhile_suffix (l := cs) p).sublist.length_le
    rw [h] at hlen
    simp at hlen
  · simpa using hc

theorem lstrip_of_rstrip {l : List Char} (h : pyLStrip l = l) :
    pyLStrip (pyRStrip l) = pyRStrip l := by
  cases l with
  | nil => rfl
  | cons c cs =>
    have hc : isPySpace c = false := head_not_of_dropWhile_eq_self h
    have hpre : pyRStrip (c :: cs) <+: c :: cs := by
      have : (c :: cs).reverse.dropWhile isPySpace <:+ (c :: cs).reverse :=
        List.dropWhile_suffix isPySpace
      have h2 := List.reverse_prefix.mpr this
      simpa [pyRStrip] using h2
    obtain ⟨t, ht⟩ := hpre
    cases hr : pyRStrip (c :: cs) with
    | nil => simp [pyLStrip]
    | cons c' r' =>
      rw [hr] at ht
      have hcc : c' = c := by
        have h3 : c' :: (r' ++ t) = c :: cs := by simpa using ht
        injection h3 with h4 h5
      subst hcc
      simp [pyLStrip, List.dropWhile_cons, hc]

theorem rstrip_twice (l : List Char) : pyRStrip (pyRStrip l) = pyRStrip l := by
  unfold pyRStrip
  rw [List.reverse_reverse, dropWhile_twice]

theorem lstrip_twice (l : List Char) : pyLStrip (pyLStrip l) = pyLStrip l :=
  dropWhile_twice isPySpace l

theorem strip_twice (l : List Char) : pyStripL (pyStripL l) = pyStripL l := by
  unfold pyStripL
  rw [lstrip_of_rstrip (lstrip_twice l), rstrip_twice]

theorem pySplit_ne_nil (sep : Char) (l : List Char) : pySplit sep l ≠ [] := by
  cases l with
  | nil => simp [pySplit]
  | cons c cs =>
    unfold pySplit
    cases h : pySplit sep cs with
    | nil => simp
    | cons a as =>
      by_cases hc : c = sep <;> simp [hc]

/-! ### Claim theorems -/

/-- C2: for every text input, `parse_toon` terminates normally and returns a
document: no line content, however malformed, lets an exception propagate to
the caller (every fallible operation is caught, so the run always ends in
`.ok`). The remaining hard-error mode of the claim — a non-string argument —
is a type-level precondition that the embedding's `String` domain makes
unexpressible. -/
theorem c2_parse_toon_always_returns (t : String) : ∃ d, parse_toon t = .ok d := by
  obtain ⟨st, h⟩ := runLines_isOk (pySplit '\n' (pyStripL t.data)) initState
  exact ⟨readout st, by simp [parse_toon, h]⟩

/-- C9: `parse_toon text = parse_toon text.strip()` — the surrounding
whitespace (including leading blank lines and the first line's leading
indentation) is discarded before parsing, and the first line produced by the
split is always at indentation width 0. -/
theorem c9_strip_idempotent (t : String) :
    parse_toon t = parse_toon (pyStrip t) ∧
    pyIndent ((pySplit '\n' (pyStripL t.data)).headD []) = 0 := by
  constructor
  · unfold parse_toon
    rw [show (pyStrip t).data = pyStripL t.data from rfl, strip_twice]
  · cases hm : pyStripL t.data with
    | nil => simp [pySplit, pyIndent]
    | cons c cs =>
      have hself : pyLStrip (pyStripL t.data) = pyStripL t.data := by
        unfold pyStripL
        exact lstrip_of_rstrip (lstrip_twice t.data)
      rw [hm] at hself
      have hc : isPySpace c = false := head_not_of_dropWhile_eq_self hself
      unfold pySplit
      cases hs : pySplit '\n' cs with
      | nil => exact absurd hs (pySplit_ne_nil '\n' cs)
      | cons l ls =>
        have hcn : ¬(c = '\n') := by
          intro he
          rw [he] at hc
          simp [isPySpace] at hc
        simp [hcn, pyIndent, List.takeWhile_cons, hc]

/-- C8: `parse_toon` is deterministic and side-effect-free. With the module
state threaded through a sequence of invocations, the final module state is
the initial one, and every call's result is a function of its own input text
alone — independent of the initial module state and of all earlier calls. -/
theorem c8_stateless_and_deterministic (g g' : ModuleState) (ts : List String) :
    (runCalls g ts).1 = g ∧
    (runCalls g ts).2 = ts.map parse_toon ∧
    (runCalls g ts).2 = (runCalls g' ts).2 := by
  induction ts generalizing g g' with
  | nil => exact ⟨rfl, rfl, rfl⟩
  | cons t ts ih =>
    obtain ⟨h1, h2, -⟩ := ih g g'
    refine ⟨?_, ?_, ?_⟩ <;>
      simp [runCalls, parse_toon_call, h1, h2, (ih g g').2.1, (ih g' g).2.1]

/-- C4: dedent resolution pops frames from the indentation stack while the
line's leading-whitespace width `w` is at most the top frame's indent,
stopping when the top's indent is strictly below `w` or only the root frame
remains; every popped frame had indent `≥ w`, so a width matching no pushed
indent resolves to the nearest enclosing frame whose indent is `< w`, and
the resolution never fails (the root frame is never popped). -/
theorem c4_dedent_pops_to_enclosing_frame (w : Int) (frames : List (Int × Nat))
    (ctx : Option (Nat × List String × Int)) (h : frames ≠ []) :
    (popFrames w frames ctx).1 ≠ [] ∧
    (∃ k, k ≤ frames.length ∧ (popFrames w frames ctx).1 = frames.drop k ∧
      ∀ f ∈ frames.take k, w ≤ f.1) ∧
    (((popFrames w frames ctx).1.headD ((-1 : Int), 0)).1 < w ∨
      (popFrames w frames ctx).1.length = 1) := by
  induction frames generalizing ctx with
  | nil => exact absurd rfl h
  | cons f fs ih =>
    cases fs with
    | nil =>
      refine ⟨by simp [popFrames], ⟨0, by simp [popFrames]⟩, Or.inr (by simp [popFrames])⟩
    | cons f2 fs2 =>
      by_cases hw : w ≤ f.1
      · have hrec := ih (popCtx w ctx) (by simp)
        have hstep : popFrames w (f :: f2 :: fs2) ctx =
            popFrames w (f2 :: fs2) (popCtx w ctx) := by
          simp only [popFrames, if_pos hw]
        rw [hstep]
        obtain ⟨hne, ⟨k, hk, hdrop, htake⟩, hstop⟩ := hrec
        refine ⟨hne, ⟨k + 1, by simpa using hk, by simpa using hdrop, ?_⟩, hstop⟩
        intro x hx
        rcases List.mem_cons.mp (by simpa using hx) with hx | hx
        · subst hx; exact hw
        · exact htake x hx
      · have hstep : popFrames w (f :: f2 :: fs2) ctx = (f :: f2 :: fs2, ctx) := by
          simp only [popFrames, if_neg hw]
        rw [hstep]
        exact ⟨by simp, ⟨0, by simp⟩, Or.inl (by simpa using lt_of_not_le hw)⟩

theorem updAssoc_of_not_mem {α : Type} (k : String) (v : α) (d : List (String × α))
    (h : k ∉ d.map Prod.fst) : updAssoc k v d = d ++ [(k, v)] := by
  induction d with
  | nil => rfl
  | cons kv rest ih =>
    have h1 : ¬(kv.1 = k) := by
      intro he
      exact h (by simp [he])
    have h2 : k ∉ rest.map Prod.fst := fun hm => h (by simp [hm])
    simp [updAssoc, h1, ih h2]

theorem foldl_updAssoc {α : Type} (ps : List (String × α)) :
    ∀ d, (ps.map Prod.fst).Nodup → (∀ q ∈ ps, q.1 ∉ d.map Prod.fst) →
      ps.foldl (fun d kv => updAssoc kv.1 kv.2 d) d = d ++ ps := by
  induction ps with
  | nil => intro d _ _; simp
  | cons p rest ih =>
    intro d hnd hdist
    have hp : p.1 ∉ d.map Prod.fst := hdist p (by simp)
    rw [List.map_cons] at hnd
    obtain ⟨hhead, htail⟩ := List.nodup_cons.mp hnd
    have hdist' : ∀ q ∈ rest, q.1 ∉ (d ++ [p]).map Prod.fst := by
      intro q hq
      simp only [List.map_append, List.mem_append]
      rintro (hin | hin)
      · exact hdist q (by simp [hq]) hin
      · simp at hin
        exact hhead (hin ▸ List.mem_map_of_mem Prod.fst hq)
    rw [List.foldl_cons]
    have hupd : updAssoc p.1 p.2 d = d ++ [p] := by
      simpa using updAssoc_of_not_mem p.1 p.2 d hp
    rw [hupd, ih (d ++ [p]) htail hdist']
    simp

theorem zip_map_fst_eq_take {α : Type} (l1 : List String) (l2 : List α) :
    (l1.zip l2).map Prod.fst = l1.take l2.length := by
  induction l1 generalizing l2 with
  | nil => simp
  | cons a l ih =>
    cases l2 with
    | nil => simp
    | cons b m => simp [List.zip_cons_cons, ih]

theorem dictOfZip_nodup (fields vals : List String) (h : fields.Nodup) :
    dictOfZip fields vals = fields.zip vals := by
  have h1 : ((fields.zip vals).map Prod.fst).Nodup := by
    rw [zip_map_fst_eq_take]
    exact h.sublist (List.take_sublist _ _)
  have h2 : ∀ q ∈ fields.zip vals, q.1 ∉ ([] : List (String × String)).map Prod.fst := by simp
  simpa [dictOfZip] using foldl_updAssoc (fields.zip vals) [] h1 h2

theorem matchKV_key (content : List Char) (kv : String × List Char)
    (h : matchKV content = some kv) : kv.1 = (content.takeWhile pyWordChar).asString := by
  simp only [matchKV] at h
  split at h
  · exact absurd h (by simp)
  · split at h
    · rw [Option.some.injEq] at h
      subst h
      rfl
    · exact absurd h (by simp)

theorem matchArrSimple_key (content : List Char) (kv : String × List Char)
    (h : matchArrSimple content = some kv) :
    kv.1 = (content.takeWhile pyWordChar).asString := by
  simp only [matchArrSimple] at h
  split at h
  · exact absurd h (by simp)
  · split at h
    · split at h
      · exact absurd h (by simp)
      · split at h
        · split at h
          · split at h
            · rw [Option.some.injEq] at h
              subst h
              rfl
            · split at h
              · rw [Option.some.injEq] at h
                subst h
                rfl
              · exact absurd h (by simp)
          · exact absurd h (by simp)
        · exact absurd h (by simp)
    · exact absurd h (by simp)

theorem matchArrObj_key (content : List Char) (kv : String × List Char)
    (h : matchArrObj content = some kv) :
    kv.1 = (content.takeWhile pyWordChar).asString := by
  simp only [matchArrObj] at h
  split at h
  · exact absurd h (by simp)
  · split at h
    · split at h
      · exact absurd h (by simp)
      · split at h
        · split at h
          · split at h
            · exact absurd h (by simp)
            · split at h
              · split at h
                · split at h
                  · rw [Option.some.injEq] at h
                    subst h
                    rfl
                  · exact absurd h (by simp)
                · exact absurd h (by simp)
              · exact absurd h (by simp)
          · exact absurd h (by simp)
        · exact absurd h (by simp)
    · exact absurd h (by simp)

theorem matchKV_none_of_head_not_word {c : Char} (cs : List Char)
    (h : pyWordChar c = false) : matchKV (c :: cs) = none := by
  simp [matchKV, List.takeWhile_cons, h]

theorem matchArrSimple_none_of_head_not_word {c : Char} (cs : List Char)
    (h : pyWordChar c = false) : matchArrSimple (c :: cs) = none := by
  simp [matchArrSimple, List.takeWhile_cons, h]

theorem matchArrObj_none_of_head_not_word {c : Char} (cs : List Char)
    (h : pyWordChar c = false) : matchArrObj (c :: cs) = none := by
  simp [matchArrObj, List.takeWhile_cons, h]

theorem classify_skip_of_no_match (st : PState) (indent : Int) (content : List Char)
    (h1 : matchArrObj content = none) (h2 : matchArrSimple content = none)
    (h3 : matchKV content = none) : classify st indent content = st := by
  simp [classify, h1, h2, h3]

/-- Closed instance of `c4_dedent_pops_to_enclosing_frame`: a dedent to
width 1 inside frames pushed at 4 and 2 pops both and resolves to the root
frame. -/
theorem c4_dedent_witness :
    (popFrames 1 [((4 : Int), 2), ((2 : Int), 1), ((-1 : Int), 0)] none).1 ≠ [] ∧
    (∃ k, k ≤ [((4 : Int), 2), ((2 : Int), 1), ((-1 : Int), 0)].length ∧
      (popFrames 1 [((4 : Int), 2), ((2 : Int), 1), ((-1 : Int), 0)] none).1 =
        [((4 : Int), 2), ((2 : Int), 1), ((-1 : Int), 0)].drop k ∧
      ∀ f ∈ [((4 : Int), 2), ((2 : Int), 1), ((-1 : Int), 0)].take k, (1 : Int) ≤ f.1) ∧
    (((popFrames 1 [((4 : Int), 2), ((2 : Int), 1), ((-1 : Int), 0)] none).1.headD
        ((-1 : Int), 0)).1 < 1 ∨
      (popFrames 1 [((4 : Int), 2), ((2 : Int), 1), ((-1 : Int), 0)] none).1.length = 1) :=
  c4_dedent_pops_to_enclosing_frame 1 [((4 : Int), 2), ((2 : Int), 1), ((-1 : Int), 0)] none
    (by simp)

/-- C1 (failing input): after the top-level header `items[1]{a}:` the
non-blank line `x: 1` sits at the header's indentation, so by the claim the
object-array context must close and no later line may be consumed as a CSV
row of `items`; but because the context is cleared only inside the frame-pop
loop and a top-level header leaves no frame to pop, the context stays open
and the later line `  rogue` is still appended as a row, so `items` ends up
non-empty. -/
theorem c1_top_level_array_context_leak :
    parse_toon "items[1]\x7ba\x7d:\nx: 1\n  rogue" =
      .ok (.obj [("items", .objArr [[("a", "rogue")]]), ("x", .scalar "1")]) ∧
    [[(("a" : String), ("rogue" : String))]] ≠ ([] : List (List (String × String))) :=
  ⟨rfl, by decide⟩

/-- C3: a row line consumed under an open object-array context is appended
if and only if it CSV-decodes to exactly `len(field_names)` values; a row
decoding to any other count, or failing to decode, leaves the state (array
and document) unchanged. Concretely, `items[1]{a,b}:` followed by a row of
three comma-separated values yields an empty `items` array. -/
theorem c3_row_count_filter (st : PState) (aid : Nat) (fields : List String)
    (content : List Char) :
    (∀ row, csvParse content = .ok row →
      consumeRow st aid fields content =
        if row.length = fields.length then appendRow st aid (dictOfZip fields row) else st) ∧
    (∀ e, csvParse content = .error e → consumeRow st aid fields content = st) ∧
    parse_toon "items[1]\x7ba,b\x7d:\n  x,y,z" = .ok (.obj [("items", .objArr [])]) := by
  refine ⟨?_, ?_, rfl⟩
  · intro row h
    simp [consumeRow, h]
  · intro e h
    simp [consumeRow, h]

/-- Closed instance of `c3_row_count_filter`: the three-value row `x,y,z`
under a two-field schema leaves the state unchanged. -/
theorem c3_row_count_filter_witness :
    consumeRow initState 0 ["a", "b"] ("x,y,z".data) = initState := by
  have h := (c3_row_count_filter initState 0 ["a", "b"] ("x,y,z".data)).1 ["x", "y", "z"] rfl
  simpa using h

/-- C5 (counterexample): with the duplicated declared field list `{a,a}` and
the matching-count row `x,y`, the appended document is `[("a","y")]` — a
Python dict collapses the duplicate key — whose key sequence is not the
declared field list `["a","a"]` in declared order, contradicting the claim
as stated. -/
theorem c5_duplicate_fields_counterexample :
    parse_toon "items[1]\x7ba,a\x7d:\n  x,y" =
      .ok (.obj [("items", .objArr [[("a", "y")]])]) ∧
    ¬ ([(("a" : String), ("y" : String))].map Prod.fst = ["a", "a"]) :=
  ⟨rfl, by decide⟩

/-- C5 (amended): every appended document is `dict(zip(fields, row))`; when
the declared field names are pairwise distinct this is exactly the declared
field list in declared order zipped with the row's decoded values, and the
claim's concrete two-row example parses as stated, with the quoted comma
preserved inside one field. -/
theorem c5_object_array_schema (fields vals : List String) (h : fields.Nodup) :
    dictOfZip fields vals = fields.zip vals ∧
    parse_toon "items[2]\x7bname,note\x7d:\n  Widget,Cheap\n  Gadget,\"Pricey, but good\"" =
      .ok (.obj [("items", .objArr
        [[("name", "Widget"), ("note", "Cheap")],
         [("name", "Gadget"), ("note", "Pricey, but good")]])]) :=
  ⟨dictOfZip_nodup fields vals h, rfl⟩

/-- Closed instance of `c5_object_array_schema` at the distinct field list
`name, note`. -/
theorem c5_object_array_schema_witness :
    dictOfZip ["name", "note"] ["Widget", "Cheap"] = [("name", "Widget"), ("note", "Cheap")] :=
  (c5_object_array_schema ["name", "note"] ["Widget", "Cheap"] (by decide)).1.trans rfl

/-- C6 (counterexample): the key of `café: x` contains `é`, which is outside
the spec's class `[A-Za-z0-9_]`, yet the line is recognized as a key-value
line and mutates the document, because Python's `\w` is Unicode-aware. -/
theorem c6_unicode_key_counterexample :
    parse_toon "café: x" = .ok (.obj [("café", .scalar "x")]) ∧
    ¬ (∀ c ∈ ("café" : String).data, specKeyChar c = true) :=
  ⟨rfl, by decide⟩

/-- C6 (amended): a line is recognized (as object-array header, simple
array, or key-value) only when its key consists solely of Python word
characters (`\w`, a Unicode-aware superset of `[A-Za-z0-9_]`); a line whose
leading character is not a word character matches no pattern, and any line
matching no recognized pattern is skipped without mutating the document. -/
theorem c6_key_character_class :
    (∀ (st : PState) (indent : Int) (content : List Char),
      matchArrObj content = none → matchArrSimple content = none →
      matchKV content = none → classify st indent content = st) ∧
    (∀ content kv, matchKV content = some kv → ∀ c ∈ kv.1.data, pyWordChar c = true) ∧
    (∀ content kv, matchArrSimple content = some kv → ∀ c ∈ kv.1.data, pyWordChar c = true) ∧
    (∀ content kv, matchArrObj content = some kv → ∀ c ∈ kv.1.data, pyWordChar c = true) ∧
    (∀ (st : PState) (indent : Int) (c : Char) (cs : List Char), pyWordChar c = false →
      classify st indent (c :: cs) = st) := by
  refine ⟨classify_skip_of_no_match, ?_, ?_, ?_, ?_⟩
  · intro content kv h c hc
    rw [matchKV_key content kv h] at hc
    exact List.mem_takeWhile_imp hc
  · intro content kv h c hc
    rw [matchArrSimple_key content kv h] at hc
    exact List.mem_takeWhile_imp hc
  · intro content kv h c hc
    rw [matchArrObj_key content kv h] at hc
    exact List.mem_takeWhile_imp hc
  · intro st indent c cs h
    exact classify_skip_of_no_match st indent (c :: cs)
      (matchArrObj_none_of_head_not_word cs h)
      (matchArrSimple_none_of_head_not_word cs h)
      (matchKV_none_of_head_not_word cs h)

/-- Closed instance of `c6_key_character_class`: a line starting with `$`
(not a word character) is skipped without mutation. -/
theorem c6_key_character_class_witness :
    classify initState 0 ('$' :: ("bad: x".data)) = initState :=
  c6_key_character_class.2.2.2.2 initState 0 '$' ("bad: x".data) (by decide)

/-- C7: a key-value line with an empty value opens a nested object that is
inserted under the parent immediately (so children parsed later are visible
through the parent), and a dedent closes it before the following line:
`outer:` alone yields an empty nested object, adding `  inner: value`
populates it through the parent, and the claim's three-line input yields
`{outer: {inner: "value"}, next: "top"}`. -/
theorem c7_nested_object_lifecycle :
    parse_toon "outer:" = .ok (.obj [("outer", .obj [])]) ∧
    parse_toon "outer:\n  inner: value" =
      .ok (.obj [("outer", .obj [("inner", .scalar "value")])]) ∧
    parse_toon "outer:\n  inner: value\nnext: top" =
      .ok (.obj [("outer", .obj [("inner", .scalar "value")]), ("next", .scalar "top")]) :=
  ⟨rfl, rfl, rfl⟩

/-- C10: a key-value line whose trimmed value is exactly one double-quote or
one single-quote character has that character stripped from both ends
(`value[1:-1]` of a one-character string is empty), so the key is bound to
the empty scalar string: the line neither opens a nested object nor keeps
the quote character. -/
theorem c10_lone_quote_value (st : PState) (indent : Int) (content : List Char) (k : String)
    (h1 : matchArrObj content = none) (h2 : matchArrSimple content = none) :
    (matchKV content = some (k, ['"']) →
      classify st indent content = setKey st (curDictId st) k (PVal.s "")) ∧
    (matchKV content = some (k, ['\'']) →
      classify st indent content = setKey st (curDictId st) k (PVal.s "")) ∧
    parse_toon "k: \"" = .ok (.obj [("k", .scalar "")]) ∧
    parse_toon "q: '" = .ok (.obj [("q", .scalar "")]) := by
  refine ⟨?_, ?_, rfl, rfl⟩ <;> intro h3 <;>
    · simp [classify, h1, h2, h3, stripQuotes]
      rfl

/-- Closed instance of `c10_lone_quote_value`: classifying the line `k: "`
binds `k` to the empty scalar. -/
theorem c10_lone_quote_value_witness :
    classify initState 0 ("k: \"".data) = setKey initState (curDictId initState) "k" (PVal.s "") :=
  (c10_lone_quote_value initState 0 ("k: \"".data) "k" rfl rfl).1 rfl

end Toon

